import Mathlib

/-!
Verification of the in-memory dataset summarization and grouping engine
of the suchetBackend repository.

The engine consists of:
* `numericColumns` and `getDatasetsSummary` (loadData module): numeric
  column sniffing and per-column count/mean/min/max statistics;
* the `/group` handler (server module): value-frequency counts over one
  field with "Unknown"-normalization of missing/blank values.

Rows are string-keyed JavaScript objects whose cells are strings (loaded
from CSV); the group handler additionally meets `null` cells.  We model a
cell as a `JsVal` (null or string) and an absent key as `Option.none`.
JavaScript numbers are modelled as exact rationals: the `Number(...)`
string coercion is embedded as `jsNumber : String → Option ℚ` where
`none` plays the role of NaN.  The non-finite values (the literal
`Infinity` spellings) fall outside the rational model and are treated as
unparseable; no claim below involves them.
-/

namespace Suchet

/-- A JavaScript cell value as it occurs in a row: `null`, or a string. -/
inductive JsVal
| null
| str (s : String)
deriving DecidableEq, Repr

/-- A row: an ordered string-keyed record of cell values. -/
abbrev Row := List (String × JsVal)

/-- A table: an ordered sequence of rows. -/
abbrev Table := List Row

/-- Property access `row[key]`: `none` models JavaScript `undefined`
(the row lacks the key). -/
def getVal (r : Row) (k : String) : Option JsVal :=
  r.lookup k

/-- The JavaScript WhiteSpace/LineTerminator characters trimmed by
`Number(...)` and `String.prototype.trim`. -/
def jsIsWhitespace (c : Char) : Bool :=
  c = ' ' || c = '\t' || c = '\n' || c = '\r' ||
  c.toNat = 0x0B || c.toNat = 0x0C || c.toNat = 0xA0 || c.toNat = 0xFEFF ||
  c.toNat = 0x1680 || (0x2000 ≤ c.toNat && c.toNat ≤ 0x200A) ||
  c.toNat = 0x2028 || c.toNat = 0x2029 || c.toNat = 0x202F ||
  c.toNat = 0x205F || c.toNat = 0x3000

/-- Strip leading and trailing JavaScript whitespace, as
`String.prototype.trim` does. -/
def jsTrim (cs : List Char) : List Char :=
  ((cs.dropWhile jsIsWhitespace).reverse.dropWhile jsIsWhitespace).reverse

/-- Take the longest run of leading decimal digits, returning their
values and the rest of the input. -/
def takeDigits : List Char → List Nat × List Char
  | [] => ([], [])
  | c :: cs =>
    if c.isDigit then
      let p := takeDigits cs
      ((c.toNat - 48) :: p.1, p.2)
    else ([], c :: cs)

/-- Decimal value of a digit sequence (most significant first). -/
def digitsToNat (ds : List Nat) : Nat :=
  ds.foldl (fun a d => 10 * a + d) 0

/-- Scale a mantissa by `10 ^ e` with the sign of the exponent given
separately (avoiding `zpow` keeps kernel evaluation cheap). -/
def applyExp (m : ℚ) (sign : Int) (e : Nat) : ℚ :=
  if 0 ≤ sign then m * (10 : ℚ) ^ e else m / (10 : ℚ) ^ e

/-- After an `e`/`E`, read an optionally signed digit run that must
exhaust the input. -/
def readExpTail (m : ℚ) (sign : Int) (cs : List Char) : Option ℚ :=
  let p := takeDigits cs
  if p.1.isEmpty || !p.2.isEmpty then none
  else some (applyExp m sign (digitsToNat p.1))

/-- Read the optional exponent part; anything else left over makes the
whole literal invalid. -/
def readExp (m : ℚ) : List Char → Option ℚ
  | [] => some m
  | c :: cs =>
    if c = 'e' || c = 'E' then
      match cs with
      | '+' :: cs2 => readExpTail m 1 cs2
      | '-' :: cs2 => readExpTail m (-1) cs2
      | cs2 => readExpTail m 1 cs2
    else none

/-- Read an unsigned decimal literal: digits, an optional point with
optional further digits, and an optional exponent. -/
def readDec (cs : List Char) : Option ℚ :=
  let ip := takeDigits cs
  match ip.2 with
  | '.' :: r2 =>
    let fp := takeDigits r2
    if ip.1.isEmpty && fp.1.isEmpty then none
    else
      readExp ((digitsToNat ip.1 : ℚ) + (digitsToNat fp.1 : ℚ) / (10 : ℚ) ^ fp.1.length) fp.2
  | _ => if ip.1.isEmpty then none else readExp (digitsToNat ip.1 : ℚ) ip.2

/-- Read an optionally signed decimal literal. -/
def readSigned : List Char → Option ℚ
  | '+' :: cs => readDec cs
  | '-' :: cs => (readDec cs).map Neg.neg
  | cs => readDec cs

/-- Digit value in the given radix, if the character is one. -/
def radixDigit (base : Nat) (c : Char) : Option Nat :=
  let v :=
    if c.isDigit then c.toNat - 48
    else if 'a' ≤ c && c ≤ 'f' then c.toNat - 87
    else if 'A' ≤ c && c ≤ 'F' then c.toNat - 55
    else 100
  if v < base then some v else none

/-- Read a whole radix-`base` digit run (as after `0x`, `0b`, `0o`). -/
def readRadix (base : Nat) (cs : List Char) : Option ℚ :=
  if cs.isEmpty then none
  else
    (cs.foldl (fun acc c => acc.bind (fun a => (radixDigit base c).map (fun d => base * a + d)))
      (some 0)).map (fun n => (n : ℚ))

/-- A trimmed, non-empty numeric literal: hex/binary/octal with a `0x`
style marker, else a signed decimal. -/
def readNum : List Char → Option ℚ
  | '0' :: c :: cs =>
    if c = 'x' || c = 'X' then readRadix 16 cs
    else if c = 'b' || c = 'B' then readRadix 2 cs
    else if c = 'o' || c = 'O' then readRadix 8 cs
    else readSigned ('0' :: c :: cs)
  | cs => readSigned cs

/-- JavaScript `Number(s)` on a string, in the rational model: trim, map
the empty string to `0`, otherwise read a numeric literal; `none` is NaN.
The non-finite `Infinity` spellings are outside the model and yield
`none`. -/
def jsNumber (s : String) : Option ℚ :=
  match jsTrim s.toList with
  | [] => some 0
  | cs => readNum cs

/-- JavaScript `Number(v)` on a possibly absent cell value:
`Number(undefined)` is NaN, `Number(null)` is `0`, strings coerce via
`jsNumber`. -/
def jsToNum : Option JsVal → Option ℚ
  | none => none
  | some JsVal.null => some 0
  | some (JsVal.str s) => jsNumber s

/-- The strict-equality test `v === ''` of the source. -/
def isEmptyStrCell : Option JsVal → Bool
  | some (JsVal.str s) => s == ""
  | _ => false

/-- One cell's test in `numericColumns`:
`r[col] === '' || !isNaN(Number(r[col]))`. -/
def numericCellOk (v : Option JsVal) : Bool :=
  isEmptyStrCell v || (jsToNum v).isSome

/-- `numericColumns(rows)` of the source: keys of the first row whose
cell passes `numericCellOk` in every row; `[]` for an empty table. -/
def numericColumns (rows : Table) : List String :=
  match rows with
  | [] => []
  | r0 :: _ => (r0.map Prod.fst).filter (fun col => rows.all (fun r => numericCellOk (getVal r col)))

/-- `rows.map(r => Number(r[col])).filter(v => !isNaN(v))` of the
source: the coerced values of a column, NaNs dropped. -/
def colValues (rows : Table) (col : String) : List ℚ :=
  rows.filterMap (fun r => jsToNum (getVal r col))

/-- The per-column statistics record of the summary. -/
structure ColStats where
  count : Nat
  mean : ℚ
  min : ℚ
  max : ℚ
deriving DecidableEq, Repr

/-- The statistics of one column: `none` when the column has no
non-NaN values (the `if (!values.length) continue` branch), else count,
`sum / count`, `Math.min(...values)` and `Math.max(...values)`. -/
def colStats (rows : Table) (col : String) : Option ColStats :=
  match colValues rows col with
  | [] => none
  | v :: vs =>
    some ⟨(v :: vs).length, (v :: vs).sum / ((v :: vs).length : ℚ),
      vs.foldl Min.min v, vs.foldl Max.max v⟩

/-- The `stats` mapping of one table: an entry per numeric column that
has at least one non-NaN value, in `numericColumns` order. -/
def tableStats (rows : Table) : List (String × ColStats) :=
  (numericColumns rows).filterMap (fun col => (colStats rows col).map (fun s => (col, s)))

/-- One table's summary object: `numeric_columns` and `stats` are
`none` exactly when the corresponding key is absent from the emitted
object. -/
structure TableSummary where
  rows : Nat
  numeric_columns : Option (List String)
  stats : Option (List (String × ColStats))
deriving DecidableEq, Repr

/-- The per-table branch of `getDatasetsSummary`: an empty table yields
`{ rows: 0 }` only, otherwise row count, numeric columns and stats. -/
def summarizeTable (rows : Table) : TableSummary :=
  if rows.isEmpty then ⟨0, none, none⟩
  else ⟨rows.length, some (numericColumns rows), some (tableStats rows)⟩

/-- `getDatasetsSummary(store)` of the source: the summary of every
table of the store, keyed by table name, in store order. -/
def getDatasetsSummary (store : List (String × Table)) : List (String × TableSummary) :=
  store.map (fun p => (p.1, summarizeTable p.2))

/-- The group-key normalization of the `/group` handler:
`undefined`, `null` and strings that trim to empty map to `"Unknown"`,
every other value keeps its (untrimmed) string form. -/
def normKey (row : Row) (field : String) : String :=
  match getVal row field with
  | none => "Unknown"
  | some JsVal.null => "Unknown"
  | some (JsVal.str s) => if jsTrim s.toList = [] then "Unknown" else s

/-- `groups.set(key, (groups.get(key) || 0) + 1)` on an insertion-ordered
map rendered as an association list: bump the present entry in place, or
append a fresh one. -/
def bump (groups : List (String × Nat)) (k : String) : List (String × Nat) :=
  if groups.any (fun p => p.1 == k) then
    groups.map (fun p => if p.1 == k then (p.1, p.2 + 1) else p)
  else groups ++ [(k, 1)]

/-- The `/group` handler's core (called `groupBy` by the spec): count
rows per normalized key, first-seen key order. -/
def groupBy (rows : Table) (field : String) : List (String × Nat) :=
  rows.foldl (fun acc r => bump acc (normKey r field)) []

/-- First-seen order of a key sequence, as the spec describes the order
of the group result: each distinct key at the position of its first
occurrence. -/
def firstSeen (ks : List String) : List String :=
  ks.foldl (fun acc k => if k ∈ acc then acc else acc ++ [k]) []

example : jsNumber "1" = some 1 := by decide
example : jsNumber "" = some 0 := by decide
example : jsNumber " " = some 0 := by decide
example : jsNumber "x" = none := by decide
example : jsNumber "-1.5e2" = some (-150) := by
  simp +decide [jsNumber, jsTrim, jsIsWhitespace, readNum, readSigned, readDec, readExp,
    readExpTail, applyExp, takeDigits, digitsToNat]
  norm_num
example : jsNumber "0x10" = some 16 := by
  simp +decide [jsNumber, jsTrim, jsIsWhitespace, readNum, readRadix, radixDigit]
example : jsNumber ".5" = some (1/2) := by
  simp +decide [jsNumber, jsTrim, jsIsWhitespace, readNum, readSigned, readDec, readExp,
    readExpTail, applyExp, takeDigits, digitsToNat]
  norm_num
example : jsNumber "." = none := by decide
example : jsNumber "1." = some 1 := by
  simp +decide [jsNumber, jsTrim, jsIsWhitespace, readNum, readSigned, readDec, readExp,
    readExpTail, applyExp, takeDigits, digitsToNat]
example : jsNumber "+-5" = none := by decide
example : jsNumber "1e3" = some 1000 := by
  simp +decide [jsNumber, jsTrim, jsIsWhitespace, readNum, readSigned, readDec, readExp,
    readExpTail, applyExp, takeDigits, digitsToNat]
example : jsNumber "1e-2" = some (1/100) := by
  simp +decide [jsNumber, jsTrim, jsIsWhitespace, readNum, readSigned, readDec, readExp,
    readExpTail, applyExp, takeDigits, digitsToNat]

example :
    colStats [[("Val", JsVal.str "1")], [("Val", JsVal.str "")], [("Val", JsVal.str "3")]] "Val"
      = some ⟨3, 4/3, 0, 3⟩ := by
  simp +decide [colStats, colValues, getVal, jsToNum, jsNumber, jsTrim, jsIsWhitespace, readNum,
    readSigned, readDec, readExp, readExpTail, applyExp, takeDigits, digitsToNat]
  norm_num

example :
    groupBy [[("State", JsVal.str "CA")], [("State", JsVal.str "")], [("State", JsVal.null)]]
      "State" = [("CA", 1), ("Unknown", 2)] := by
  simp +decide [groupBy, bump, normKey, getVal, jsTrim, jsIsWhitespace]

/-! ### Helper lemmas -/

/-- A string trims to empty exactly when every character is JavaScript
whitespace. -/
lemma jsTrim_eq_nil_iff (cs : List Char) :
    jsTrim cs = [] ↔ ∀ c ∈ cs, jsIsWhitespace c = true := by
  constructor
  · intro h c hc
    have h1 : (cs.dropWhile jsIsWhitespace).reverse.dropWhile jsIsWhitespace = [] := by
      have h0 := congrArg List.reverse h
      simpa [jsTrim] using h0
    have h2 : ∀ x ∈ cs.dropWhile jsIsWhitespace, jsIsWhitespace x = true := by
      intro x hx
      exact List.dropWhile_eq_nil_iff.mp h1 x (List.mem_reverse.mpr hx)
    have h4 : cs = cs.takeWhile jsIsWhitespace ++ cs.dropWhile jsIsWhitespace :=
      (List.takeWhile_append_dropWhile _ _).symm
    rcases List.mem_append.mp (h4 ▸ hc) with h5 | h5
    · exact List.mem_takeWhile_imp h5
    · exact h2 c h5
  · intro h
    have h1 : cs.dropWhile jsIsWhitespace = [] := List.dropWhile_eq_nil_iff.mpr h
    simp [jsTrim, h1]

/-- The cell test of `numericColumns` holds exactly when the cell is the
empty string or coerces to a (non-NaN) number. -/
lemma numericCellOk_iff (v : Option JsVal) :
    numericCellOk v = true ↔ v = some (JsVal.str "") ∨ (jsToNum v).isSome = true := by
  cases v with
  | none => simp [numericCellOk, isEmptyStrCell, jsToNum]
  | some w =>
    cases w with
    | null => simp [numericCellOk, isEmptyStrCell, jsToNum]
    | str s => simp [numericCellOk, isEmptyStrCell, jsToNum]

/-- `filterMap` keeps as many elements as pass the `isSome` test. -/
lemma length_filterMap_eq {α β : Type} (f : α → Option β) (l : List α) :
    (l.filterMap f).length = (l.filter (fun a => (f a).isSome)).length := by
  induction l with
  | nil => rfl
  | cons a t ih =>
    cases h : f a <;> simp [List.filterMap_cons, List.filter_cons, h, ih]

/-- A key that looks up to a value is among the row's keys. -/
lemma mem_keys_of_getVal (r : Row) (k : String) (v : JsVal)
    (h : getVal r k = some v) : k ∈ r.map Prod.fst := by
  induction r with
  | nil => cases h
  | cons p t ih =>
    obtain ⟨pk, pv⟩ := p
    by_cases hp : k = pk
    · simp [hp]
    · have hb : (k == pk) = false := beq_eq_false_iff_ne.mpr hp
      have h2 : getVal t k = some v := by simpa [getVal, List.lookup, hb] using h
      simp only [List.map_cons, List.mem_cons]
      exact Or.inr (ih h2)

/-- Membership in `numericColumns` forces the cell test in every row. -/
lemma mem_numericColumns_all (rows : Table) (col : String)
    (h : col ∈ numericColumns rows) :
    ∀ r ∈ rows, numericCellOk (getVal r col) = true := by
  cases rows with
  | nil => cases h
  | cons a t =>
    simp only [numericColumns] at h
    exact List.all_eq_true.mp (List.mem_filter.mp h).2

/-- A left fold with `min` never exceeds its seed. -/
lemma foldl_min_le_init (l : List ℚ) : ∀ v : ℚ, l.foldl Min.min v ≤ v := by
  induction l with
  | nil => intro v; exact le_refl v
  | cons a t ih => intro v; exact le_trans (ih (Min.min v a)) (min_le_left v a)

/-- A left fold with `min` never exceeds any list element. -/
lemma foldl_min_le_mem (l : List ℚ) : ∀ v x : ℚ, x ∈ l → l.foldl Min.min v ≤ x := by
  induction l with
  | nil => intro v x hx; cases hx
  | cons a t ih =>
    intro v x hx
    rcases List.mem_cons.mp hx with rfl | hx
    · exact le_trans (foldl_min_le_init t (Min.min v x)) (min_le_right v x)
    · exact ih (Min.min v a) x hx

/-- A left fold with `min` yields the seed or a list element. -/
lemma foldl_min_mem (l : List ℚ) : ∀ v : ℚ, l.foldl Min.min v = v ∨ l.foldl Min.min v ∈ l := by
  induction l with
  | nil => intro v; left; rfl
  | cons a t ih =>
    intro v
    rcases ih (Min.min v a) with h | h
    · rcases min_choice v a with h2 | h2
      · left; rw [List.foldl_cons, h, h2]
      · right; rw [List.foldl_cons, h, h2]; exact List.mem_cons_self a t
    · right; exact List.mem_cons_of_mem a h

/-- A left fold with `max` is at least its seed. -/
lemma le_foldl_max_init (l : List ℚ) : ∀ v : ℚ, v ≤ l.foldl Max.max v := by
  induction l with
  | nil => intro v; exact le_refl v
  | cons a t ih => intro v; exact le_trans (le_max_left v a) (ih (Max.max v a))

/-- A left fold with `max` is at least any list element. -/
lemma le_foldl_max_mem (l : List ℚ) : ∀ v x : ℚ, x ∈ l → x ≤ l.foldl Max.max v := by
  induction l with
  | nil => intro v x hx; cases hx
  | cons a t ih =>
    intro v x hx
    rcases List.mem_cons.mp hx with rfl | hx
    · exact le_trans (le_max_right v x) (le_foldl_max_init t (Max.max v x))
    · exact ih (Max.max v a) x hx

/-- A left fold with `max` yields the seed or a list element. -/
lemma foldl_max_mem (l : List ℚ) : ∀ v : ℚ, l.foldl Max.max v = v ∨ l.foldl Max.max v ∈ l := by
  induction l with
  | nil => intro v; left; rfl
  | cons a t ih =>
    intro v
    rcases ih (Max.max v a) with h | h
    · rcases max_choice v a with h2 | h2
      · left; rw [List.foldl_cons, h, h2]
      · right; rw [List.foldl_cons, h, h2]; exact List.mem_cons_self a t
    · right; exact List.mem_cons_of_mem a h

/-- The occupancy test of `bump` agrees with key membership. -/
lemma any_key_iff (groups : List (String × Nat)) (k : String) :
    groups.any (fun p => p.1 == k) = true ↔ k ∈ groups.map Prod.fst := by
  simp [List.any_eq_true, List.mem_map]

/-- The in-place count update keeps the key of every entry. -/
lemma update_fst (k : String) (p : String × Nat) :
    ((if p.1 == k then (p.1, p.2 + 1) else p) : String × Nat).1 = p.1 := by
  by_cases hp : (p.1 == k) = true
  · rw [if_pos hp]
  · rw [if_neg hp]

/-- Updating the count of one key leaves the key sequence unchanged. -/
lemma map_fst_update (groups : List (String × Nat)) (k : String) :
    (groups.map (fun p => if p.1 == k then (p.1, p.2 + 1) else p)).map Prod.fst
      = groups.map Prod.fst := by
  induction groups with
  | nil => rfl
  | cons p t ih => simp only [List.map_cons, update_fst, ih]

/-- `bump` leaves the key sequence unchanged when the key is present and
appends it otherwise. -/
lemma bump_map_fst (groups : List (String × Nat)) (k : String) :
    (bump groups k).map Prod.fst =
      if k ∈ groups.map Prod.fst then groups.map Prod.fst
      else groups.map Prod.fst ++ [k] := by
  by_cases h : k ∈ groups.map Prod.fst
  · rw [if_pos h, bump, if_pos ((any_key_iff groups k).mpr h), map_fst_update]
  · rw [if_neg h, bump, if_neg]
    · simp
    · intro hc; exact h ((any_key_iff groups k).mp hc)

/-- An update targeting an absent key changes nothing. -/
lemma update_id_of_not_mem (t : List (String × Nat)) (k : String)
    (h : k ∉ t.map Prod.fst) :
    t.map (fun p => if p.1 == k then (p.1, p.2 + 1) else p) = t := by
  induction t with
  | nil => rfl
  | cons q s ih =>
    simp only [List.map_cons, List.mem_cons, not_or] at h
    have hb : (q.1 == k) = false := beq_eq_false_iff_ne.mpr (fun e => h.1 e.symm)
    simp only [List.map_cons, if_neg (by simp [hb] : ¬((q.1 == k) = true)), ih h.2]

/-- Updating a present key raises the count total by one, when keys are
unique. -/
lemma sum_snd_update (groups : List (String × Nat)) (k : String)
    (hk : k ∈ groups.map Prod.fst) (hn : (groups.map Prod.fst).Nodup) :
    ((groups.map (fun p => if p.1 == k then (p.1, p.2 + 1) else p)).map Prod.snd).sum
      = ((groups.map Prod.snd).sum) + 1 := by
  induction groups with
  | nil => cases hk
  | cons p t ih =>
    simp only [List.map_cons, List.mem_cons, List.nodup_cons] at hk hn
    by_cases hp : p.1 = k
    · have ht : k ∉ t.map Prod.fst := hp ▸ hn.1
      simp only [List.map_cons, if_pos (beq_iff_eq.mpr hp : (p.1 == k) = true),
        update_id_of_not_mem t k ht, List.sum_cons]
      show p.2 + 1 + (List.map Prod.snd t).sum = p.2 + (List.map Prod.snd t).sum + 1
      omega
    · have hk2 : k ∈ t.map Prod.fst := by
        rcases hk with h | h
        · exact absurd h.symm hp
        · exact h
      simp only [List.map_cons, if_neg (fun hb => hp (beq_iff_eq.mp hb)), List.sum_cons,
        ih hk2 hn.2]
      omega

/-- `bump` always raises the count total by exactly one. -/
lemma bump_sum (groups : List (String × Nat)) (k : String)
    (hn : (groups.map Prod.fst).Nodup) :
    ((bump groups k).map Prod.snd).sum = ((groups.map Prod.snd).sum) + 1 := by
  by_cases h : k ∈ groups.map Prod.fst
  · rw [bump, if_pos ((any_key_iff groups k).mpr h)]
    exact sum_snd_update groups k h hn
  · rw [bump, if_neg (fun hc => h ((any_key_iff groups k).mp hc))]
    simp

/-- `bump` preserves uniqueness of the keys. -/
lemma bump_nodup (groups : List (String × Nat)) (k : String)
    (hn : (groups.map Prod.fst).Nodup) :
    ((bump groups k).map Prod.fst).Nodup := by
  rw [bump_map_fst]
  by_cases h : k ∈ groups.map Prod.fst
  · rw [if_pos h]; exact hn
  · rw [if_neg h]
    simp [List.nodup_append, hn, h]

/-- Loop invariant of the group fold: the count total grows by one per
row and the keys stay unique. -/
lemma groupBy_loop_sum (rows : Table) (field : String) :
    ∀ acc : List (String × Nat), (acc.map Prod.fst).Nodup →
      (((rows.foldl (fun a r => bump a (normKey r field)) acc).map Prod.snd).sum
          = (acc.map Prod.snd).sum + rows.length)
        ∧ ((rows.foldl (fun a r => bump a (normKey r field)) acc).map Prod.fst).Nodup := by
  induction rows with
  | nil => intro acc h; exact ⟨by simp, h⟩
  | cons r t ih =>
    intro acc h
    have h1 := bump_sum acc (normKey r field) h
    have h2 := bump_nodup acc (normKey r field) h
    have h3 := ih (bump acc (normKey r field)) h2
    refine ⟨?_, by simpa using h3.2⟩
    rw [List.foldl_cons, h3.1, h1]
    simp only [List.length_cons]
    omega

/-- The group fold's key sequence is the first-seen sequence of the
normalized keys. -/
lemma groupBy_loop_keys (rows : Table) (field : String) :
    ∀ acc : List (String × Nat),
      (rows.foldl (fun a r => bump a (normKey r field)) acc).map Prod.fst
        = (rows.map (fun r => normKey r field)).foldl
            (fun a k => if k ∈ a then a else a ++ [k]) (acc.map Prod.fst) := by
  induction rows with
  | nil => intro acc; rfl
  | cons r t ih =>
    intro acc
    rw [List.foldl_cons, List.map_cons, List.foldl_cons, ih (bump acc (normKey r field)),
      bump_map_fst]

/-- C6: the counts of the group result sum to the number of rows — every
row lands in exactly one group — and an empty table yields an empty
result. -/
theorem groupBy_counts_sum (rows : Table) (field : String) :
    ((groupBy rows field).map Prod.snd).sum = rows.length
    ∧ groupBy ([] : Table) field = [] := by
  constructor
  · have h := (groupBy_loop_sum rows field [] (by simp)).1
    simpa [groupBy] using h
  · rfl

/-- C7: the group result lists its keys in first-seen order — the order
in which each distinct normalized key first occurs in the table. -/
theorem groupBy_first_seen_order (rows : Table) (field : String) :
    (groupBy rows field).map Prod.fst = firstSeen (rows.map (fun r => normKey r field)) := by
  have h := groupBy_loop_keys rows field []
  simpa [groupBy, firstSeen] using h

/-- C3: for a non-empty table, `numericColumns` is exactly the keys of
the first row, in first-row order, whose cell in every row is the empty
string or coerces to a number (one failing non-empty cell anywhere
disqualifies the column); a zero-row table gives the empty sequence. -/
theorem numericColumns_spec (r0 : Row) (rest : Table) (col : String) :
    (col ∈ numericColumns (r0 :: rest) ↔
      col ∈ r0.map Prod.fst ∧ ∀ r ∈ r0 :: rest,
        getVal r col = some (JsVal.str "") ∨ (jsToNum (getVal r col)).isSome = true)
    ∧ List.Sublist (numericColumns (r0 :: rest)) (r0.map Prod.fst)
    ∧ numericColumns ([] : Table) = [] := by
  refine ⟨?_, ?_, rfl⟩
  · simp only [numericColumns]
    constructor
    · intro h
      have h2 := List.mem_filter.mp h
      refine ⟨h2.1, ?_⟩
      intro r hr
      exact (numericCellOk_iff _).mp (List.all_eq_true.mp h2.2 r hr)
    · rintro ⟨h1, h2⟩
      exact List.mem_filter.mpr
        ⟨h1, List.all_eq_true.mpr (fun r hr => (numericCellOk_iff _).mpr (h2 r hr))⟩
  · simp only [numericColumns]
    exact List.filter_sublist _

/-- C4: the group-key normalization — absent keys, `null`, and strings
that are empty after trimming map to `"Unknown"`; any other string is
kept verbatim, untrimmed — together with the spec's Scenario 3. -/
theorem groupKey_normalization (row : Row) (field : String) :
    (getVal row field = none → normKey row field = "Unknown")
    ∧ (getVal row field = some JsVal.null → normKey row field = "Unknown")
    ∧ (∀ s, getVal row field = some (JsVal.str s) →
        (∀ c ∈ s.toList, jsIsWhitespace c = true) → normKey row field = "Unknown")
    ∧ (∀ s, getVal row field = some (JsVal.str s) →
        ¬(∀ c ∈ s.toList, jsIsWhitespace c = true) → normKey row field = s)
    ∧ groupBy [[("State", JsVal.str "CA")], [("State", JsVal.str "")], [("State", JsVal.null)]]
        "State" = [("CA", 1), ("Unknown", 2)] := by
  refine ⟨?_, ?_, ?_, ?_, ?_⟩
  · intro h; simp [normKey, h]
  · intro h; simp [normKey, h]
  · intro s h hw
    have ht : jsTrim s.data = [] := (jsTrim_eq_nil_iff s.toList).mpr hw
    simp [normKey, h, ht]
  · intro s h hw
    have hne : ¬ jsTrim s.data = [] := fun e => hw ((jsTrim_eq_nil_iff s.toList).mp e)
    simp [normKey, h, hne]
  · simp +decide [groupBy, bump, normKey, getVal, jsTrim, jsIsWhitespace]

/-- Witness for C4 at `[("State", null)]` and at a row whose value has
inner whitespace kept verbatim. -/
theorem groupKey_normalization_witness :
    normKey [("State", JsVal.null)] "State" = "Unknown"
    ∧ normKey [("State", JsVal.str " hi ")] "State" = " hi " :=
  ⟨(groupKey_normalization [("State", JsVal.null)] "State").2.1 rfl,
   (groupKey_normalization [("State", JsVal.str " hi ")] "State").2.2.2.1 " hi " rfl (by decide)⟩

/-- C5: a name bound to a zero-row table in the store is summarized as
`{ rows: 0 }` with the `numeric_columns` and `stats` keys absent. -/
theorem empty_table_summary (store : List (String × Table)) (name : String)
    (h : (name, ([] : Table)) ∈ store) :
    (name, (⟨0, none, none⟩ : TableSummary)) ∈ getDatasetsSummary store :=
  List.mem_map_of_mem (fun p : String × Table => (p.1, summarizeTable p.2)) h

/-- Witness for C5: the spec's Scenario 4, `{conditions: []}`. -/
theorem empty_table_summary_witness :
    ("conditions", (⟨0, none, none⟩ : TableSummary))
      ∈ getDatasetsSummary [("conditions", ([] : Table))] :=
  empty_table_summary [("conditions", ([] : Table))] "conditions" (List.mem_singleton.mpr rfl)

/-- C9: `numericColumns` only returns keys of the first row, and
appending a row holding a non-empty, non-coercible value in column `col`
leaves `col` out of the result. -/
theorem numericColumns_subset_append (r0 : Row) (rest : Table) (rows : Table)
    (r : Row) (col s : String)
    (hv : getVal r col = some (JsVal.str s)) (hne : s ≠ "") (hnan : jsNumber s = none) :
    numericColumns (r0 :: rest) ⊆ r0.map Prod.fst
    ∧ col ∉ numericColumns (rows ++ [r]) := by
  constructor
  · simp only [numericColumns]
    exact (List.filter_sublist _).subset
  · intro hmem
    have hcell := mem_numericColumns_all (rows ++ [r]) col hmem r (by simp)
    rw [hv] at hcell
    simp [numericCellOk, isEmptyStrCell, jsToNum, hnan, hne] at hcell

/-- Witness for C9: appending a row with cell `"x"` removes column `C`. -/
theorem numericColumns_subset_append_witness :
    numericColumns [[("C", JsVal.str "1")]] ⊆ [("C", JsVal.str "1")].map Prod.fst
    ∧ "C" ∉ numericColumns ([[("C", JsVal.str "1")]] ++ [[("C", JsVal.str "x")]]) :=
  numericColumns_subset_append [("C", JsVal.str "1")] [] [[("C", JsVal.str "1")]]
    [("C", JsVal.str "x")] "C" "x" rfl (by decide) (by decide)

/-- Every blank cell coerces to `0`, so an all-blank column's value list
is all zeros. -/
lemma colValues_blank (rows : Table) (col : String)
    (hall : ∀ r ∈ rows, getVal r col = some (JsVal.str "")) :
    colValues rows col = List.replicate rows.length 0 := by
  induction rows with
  | nil => rfl
  | cons a t ih =>
    have ha : jsToNum (getVal a col) = some 0 := by
      rw [hall a (List.mem_cons_self a t)]; rfl
    rw [colValues, List.filterMap_cons, ha, List.length_cons, List.replicate_succ]
    show 0 :: colValues t col = 0 :: List.replicate t.length 0
    rw [ih fun r hr => hall r (List.mem_cons_of_mem a hr)]

/-- Folding `min` over zeros from a zero seed stays zero. -/
lemma foldl_min_replicate_zero (n : Nat) :
    (List.replicate n (0 : ℚ)).foldl Min.min 0 = 0 := by
  induction n with
  | zero => rfl
  | succ m ih => rw [List.replicate_succ, List.foldl_cons, min_self]; exact ih

/-- Folding `max` over zeros from a zero seed stays zero. -/
lemma foldl_max_replicate_zero (n : Nat) :
    (List.replicate n (0 : ℚ)).foldl Max.max 0 = 0 := by
  induction n with
  | zero => rfl
  | succ m ih => rw [List.replicate_succ, List.foldl_cons, max_self]; exact ih

/-- C8: whenever a column gets a stats entry, its minimum is at most the
mean and the mean is at most the maximum. -/
theorem stats_min_le_mean_le_max (rows : Table) (col : String) (s : ColStats)
    (h : colStats rows col = some s) : s.min ≤ s.mean ∧ s.mean ≤ s.max := by
  cases hv : colValues rows col with
  | nil => simp only [colStats, hv] at h; exact Option.noConfusion h
  | cons v vs =>
    simp only [colStats, hv] at h
    obtain rfl := Option.some.inj h
    have hn : (0 : ℚ) < ((v :: vs).length : ℚ) := by
      exact_mod_cast Nat.succ_pos vs.length
    constructor
    · show vs.foldl Min.min v ≤ (v :: vs).sum / ((v :: vs).length : ℚ)
      have hb : ∀ x ∈ v :: vs, vs.foldl Min.min v ≤ x := by
        intro x hx
        rcases List.mem_cons.mp hx with rfl | hx2
        · exact foldl_min_le_init vs x
        · exact foldl_min_le_mem vs v x hx2
      have hs := List.card_nsmul_le_sum (v :: vs) (vs.foldl Min.min v) hb
      rw [nsmul_eq_mul] at hs
      rw [le_div_iff₀ hn]
      calc vs.foldl Min.min v * ((v :: vs).length : ℚ)
          = ((v :: vs).length : ℚ) * vs.foldl Min.min v := mul_comm _ _
        _ ≤ (v :: vs).sum := hs
    · show (v :: vs).sum / ((v :: vs).length : ℚ) ≤ vs.foldl Max.max v
      have hb : ∀ x ∈ v :: vs, x ≤ vs.foldl Max.max v := by
        intro x hx
        rcases List.mem_cons.mp hx with rfl | hx2
        · exact le_foldl_max_init vs x
        · exact le_foldl_max_mem vs v x hx2
      have hs := List.sum_le_card_nsmul (v :: vs) (vs.foldl Max.max v) hb
      rw [nsmul_eq_mul] at hs
      rw [div_le_iff₀ hn]
      calc (v :: vs).sum ≤ ((v :: vs).length : ℚ) * vs.foldl Max.max v := hs
        _ = vs.foldl Max.max v * ((v :: vs).length : ℚ) := mul_comm _ _

/-- Witness for C8 on the table `[{Val:"1"},{Val:"3"}]`. -/
theorem stats_min_le_mean_le_max_witness :
    colStats [[("Val", JsVal.str "1")], [("Val", JsVal.str "3")]] "Val" = some ⟨2, 2, 1, 3⟩
    ∧ ((⟨2, 2, 1, 3⟩ : ColStats).min ≤ (⟨2, 2, 1, 3⟩ : ColStats).mean
        ∧ (⟨2, 2, 1, 3⟩ : ColStats).mean ≤ (⟨2, 2, 1, 3⟩ : ColStats).max) := by
  have h : colStats [[("Val", JsVal.str "1")], [("Val", JsVal.str "3")]] "Val"
      = some ⟨2, 2, 1, 3⟩ := by
    simp +decide [colStats, colValues, getVal, jsToNum, jsNumber, jsTrim, jsIsWhitespace,
      readNum, readSigned, readDec, readExp, readExpTail, applyExp, takeDigits, digitsToNat]
    norm_num
  exact ⟨h, stats_min_le_mean_le_max _ "Val" _ h⟩

/-- C1 (amended): the stats count every coercible cell — blank cells
coerce to `0` and are included, not excluded — the mean is the sum of
the coerced values over their number, and min/max are their extrema. -/
theorem colStats_spec_amended (rows : Table) (col : String) (s : ColStats)
    (h : colStats rows col = some s) :
    s.count = (rows.filter (fun r => (jsToNum (getVal r col)).isSome)).length
    ∧ s.mean * (s.count : ℚ) = (colValues rows col).sum
    ∧ s.min ∈ colValues rows col ∧ (∀ x ∈ colValues rows col, s.min ≤ x)
    ∧ s.max ∈ colValues rows col ∧ (∀ x ∈ colValues rows col, x ≤ s.max) := by
  cases hv : colValues rows col with
  | nil => simp only [colStats, hv] at h; exact Option.noConfusion h
  | cons v vs =>
    simp only [colStats, hv] at h
    obtain rfl := Option.some.inj h
    refine ⟨?_, ?_, ?_, ?_, ?_, ?_⟩
    · have h1 : (colValues rows col).length
          = (rows.filter (fun r => (jsToNum (getVal r col)).isSome)).length :=
        length_filterMap_eq _ rows
      rw [hv] at h1
      exact h1
    · show (v :: vs).sum / ((v :: vs).length : ℚ) * (((v :: vs).length : Nat) : ℚ)
        = (v :: vs).sum
      exact div_mul_cancel₀ _ (Nat.cast_ne_zero.mpr (Nat.succ_ne_zero vs.length))
    · show vs.foldl Min.min v ∈ v :: vs
      rcases foldl_min_mem vs v with he | he
      · rw [he]; exact List.mem_cons_self v vs
      · exact List.mem_cons_of_mem v he
    · show ∀ x ∈ v :: vs, vs.foldl Min.min v ≤ x
      intro x hx
      rcases List.mem_cons.mp hx with ⟨rfl⟩ | hx2
      · exact foldl_min_le_init vs x
      · exact foldl_min_le_mem vs v x hx2
    · show vs.foldl Max.max v ∈ v :: vs
      rcases foldl_max_mem vs v with he | he
      · rw [he]; exact List.mem_cons_self v vs
      · exact List.mem_cons_of_mem v he
    · show ∀ x ∈ v :: vs, x ≤ vs.foldl Max.max v
      intro x hx
      rcases List.mem_cons.mp hx with ⟨rfl⟩ | hx2
      · exact le_foldl_max_init vs x
      · exact le_foldl_max_mem vs v x hx2

/-- Counterexample for C1: on the spec's Scenario 2 table the blank
cell is counted as `0`, giving `{count:3, mean:4/3, min:0, max:3}` and
not the claimed `{count:2, mean:2, min:1, max:3}`. -/
theorem colStats_scenario2_counterexample :
    colStats [[("Val", JsVal.str "1")], [("Val", JsVal.str "")], [("Val", JsVal.str "3")]] "Val"
      = some ⟨3, 4/3, 0, 3⟩
    ∧ colStats [[("Val", JsVal.str "1")], [("Val", JsVal.str "")], [("Val", JsVal.str "3")]] "Val"
      ≠ some ⟨2, 2, 1, 3⟩ := by
  have h : colStats [[("Val", JsVal.str "1")], [("Val", JsVal.str "")], [("Val", JsVal.str "3")]]
      "Val" = some ⟨3, 4/3, 0, 3⟩ := by
    simp +decide [colStats, colValues, getVal, jsToNum, jsNumber, jsTrim, jsIsWhitespace,
      readNum, readSigned, readDec, readExp, readExpTail, applyExp, takeDigits, digitsToNat]
    norm_num
  refine ⟨h, ?_⟩
  rw [h]
  intro he
  have h2 := Option.some.inj he
  simp [ColStats.mk.injEq] at h2

/-- Witness for C1 (amended) on the one-row table `[{Val:"2"}]`. -/
theorem colStats_spec_amended_witness :
    colStats [[("Val", JsVal.str "2")]] "Val" = some ⟨1, 2, 2, 2⟩
    ∧ (⟨1, 2, 2, 2⟩ : ColStats).min ∈ colValues [[("Val", JsVal.str "2")]] "Val" := by
  have h : colStats [[("Val", JsVal.str "2")]] "Val" = some ⟨1, 2, 2, 2⟩ := by
    simp +decide [colStats, colValues, getVal, jsToNum, jsNumber, jsTrim, jsIsWhitespace,
      readNum, readSigned, readDec, readExp, readExpTail, applyExp, takeDigits, digitsToNat]
  exact ⟨h, (colStats_spec_amended _ "Val" _ h).2.2.1⟩

/-- C2 (amended): an all-blank column of a non-empty table is numeric
and is NOT omitted from the stats: it gets the entry
`{count: rows, mean: 0, min: 0, max: 0}`, because blank cells coerce to
`0` rather than being unparseable. -/
theorem allBlank_column_stats (rows : Table) (col : String)
    (hne : rows ≠ [])
    (hall : ∀ r ∈ rows, getVal r col = some (JsVal.str "")) :
    col ∈ numericColumns rows
    ∧ (col, (⟨rows.length, 0, 0, 0⟩ : ColStats)) ∈ tableStats rows := by
  obtain ⟨r0, rest, rfl⟩ : ∃ r0 rest, rows = r0 :: rest := by
    cases rows with
    | nil => exact absurd rfl hne
    | cons a t => exact ⟨a, t, rfl⟩
  have hmem : col ∈ numericColumns (r0 :: rest) := by
    simp only [numericColumns]
    refine List.mem_filter.mpr ⟨?_, ?_⟩
    · exact mem_keys_of_getVal r0 col _ (hall r0 (List.mem_cons_self r0 rest))
    · refine List.all_eq_true.mpr fun r hr => ?_
      rw [hall r hr]
      rfl
  have hrep2 : colValues (r0 :: rest) col = 0 :: List.replicate rest.length 0 := by
    rw [colValues_blank _ col hall, List.length_cons, List.replicate_succ]
  have hstats : colStats (r0 :: rest) col = some ⟨(r0 :: rest).length, 0, 0, 0⟩ := by
    simp only [colStats, hrep2, List.sum_cons, List.sum_replicate, List.length_cons,
      List.length_replicate, foldl_min_replicate_zero, foldl_max_replicate_zero, smul_zero,
      zero_add, zero_div]
  exact ⟨hmem, List.mem_filterMap.mpr ⟨col, hmem, by rw [hstats]; rfl⟩⟩

/-- Counterexample for C2: a one-row all-blank column is in
`numeric_columns` AND in `stats` (with `{count:1, mean:0, min:0,
max:0}`), not omitted. -/
theorem allBlank_column_counterexample :
    numericColumns [[("Val", JsVal.str "")]] = ["Val"]
    ∧ tableStats [[("Val", JsVal.str "")]] = [("Val", ⟨1, 0, 0, 0⟩)]
    ∧ "Val" ∈ (tableStats [[("Val", JsVal.str "")]]).map Prod.fst := by
  have h2 : tableStats [[("Val", JsVal.str "")]] = [("Val", ⟨1, 0, 0, 0⟩)] := by
    simp +decide [tableStats, colStats, colValues, numericColumns, numericCellOk,
      isEmptyStrCell, getVal, jsToNum, jsNumber, jsTrim, jsIsWhitespace]
  exact ⟨by decide, h2, by rw [h2]; decide⟩

/-- Witness for C2 (amended) on a two-row all-blank table. -/
theorem allBlank_column_stats_witness :
    "Val" ∈ numericColumns [[("Val", JsVal.str "")], [("Val", JsVal.str "")]]
    ∧ ("Val", (⟨2, 0, 0, 0⟩ : ColStats))
        ∈ tableStats [[("Val", JsVal.str "")], [("Val", JsVal.str "")]] :=
  allBlank_column_stats [[("Val", JsVal.str "")], [("Val", JsVal.str "")]] "Val"
    (by decide) (by decide)

/-- C10: a non-empty whitespace-only cell coerces to `0` (so it passes
the numeric-column cell test) and contributes the value `0` to the
column's value list, hence to count, mean, min and max; concretely,
`[{Val:" "},{Val:"2"}]` gives `{count:2, mean:1, min:0, max:2}`. -/
theorem whitespace_cell_numeric (s : String) (_hne : s ≠ "")
    (hws : ∀ c ∈ s.toList, jsIsWhitespace c = true) :
    numericCellOk (some (JsVal.str s)) = true
    ∧ jsToNum (some (JsVal.str s)) = some 0
    ∧ (∀ (pre post : Table) (r : Row) (col : String),
        getVal r col = some (JsVal.str s) →
        colValues (pre ++ r :: post) col = colValues pre col ++ 0 :: colValues post col)
    ∧ colStats [[("Val", JsVal.str " ")], [("Val", JsVal.str "2")]] "Val" = some ⟨2, 1, 0, 2⟩ := by
  have ht : jsTrim s.data = [] := (jsTrim_eq_nil_iff s.toList).mpr hws
  have h0 : jsToNum (some (JsVal.str s)) = some 0 := by
    show jsNumber s = some 0
    simp [jsNumber, ht]
  refine ⟨?_, h0, ?_, ?_⟩
  · simp [numericCellOk, h0]
  · intro pre post r col hv
    rw [colValues, List.filterMap_append, List.filterMap_cons, hv, h0]
    rfl
  · simp +decide [colStats, colValues, getVal, jsToNum, jsNumber, jsTrim, jsIsWhitespace,
      readNum, readSigned, readDec, readExp, readExpTail, applyExp, takeDigits, digitsToNat]

/-- Witness for C10 at the single-space string. -/
theorem whitespace_cell_numeric_witness :
    numericCellOk (some (JsVal.str " ")) = true
    ∧ jsToNum (some (JsVal.str " ")) = some 0 :=
  ⟨(whitespace_cell_numeric " " (by decide) (by decide)).1,
   (whitespace_cell_numeric " " (by decide) (by decide)).2.1⟩

end Suchet
